import Mathlib

/-!
Verification of the penny-stock ranking and insight-generation core of
`Algorithm.Python/Alphas/PumpAndDumpAlpha.py`.

The embedding is shallow: prices, volumes and returns are rationals
(the claims under study are about ordering, filtering and truncation
logic, not binary floating-point artefacts), Python `dict` insertion
order is modelled by association lists with in-place value overwrite,
and Python's stable `sorted` is modelled by `List.insertionSort`
(stable for a total preorder, like Timsort).
-/

/-- Identifiers (`Symbol` objects of the host framework) with their
ascending total order, modelled as strings. -/
abbrev SymbolId := String

/-- One tracked security's session data, as read from
`algorithm.ActiveSecurities.Values` in `PumpAndDumpAlphaModel.Update`:
`security.Symbol`, `security.Open`, `security.Close`, `security.HasData`. -/
structure PriceObservation where
  symbol : SymbolId
  openPrice : ℚ
  closePrice : ℚ
  hasData : Bool
  deriving DecidableEq, Repr

/-- The direction component of an emitted insight. -/
inductive InsightDirection where
  | Up
  | Down
  | Flat
  deriving DecidableEq, Repr

/-- The record built by `Insight.Price(key, predictionInterval,
InsightDirection.Down, value, None)` in the source. -/
structure InsightRecord where
  symbol : SymbolId
  predictionInterval : ℚ
  direction : InsightDirection
  magnitude : ℚ
  confidence : Option ℚ
  deriving DecidableEq, Repr

/-- The floor of a rational, written executably so that concrete
instances reduce inside the kernel. -/
def ratFloor (q : ℚ) : ℤ := q.num.fdiv q.den

/-- Python's `round` to an integer: round half to even (banker's
rounding), here on exact rationals. -/
def roundHalfEven (q : ℚ) : ℤ :=
  let f : ℤ := ratFloor q
  let frac : ℚ := q - (f : ℚ)
  if frac < 1 / 2 then f
  else if 1 / 2 < frac then f + 1
  else if f % 2 = 0 then f else f + 1

/-- Python's `round(x, 6)` of the source's ranking key: round to six
decimal places. -/
def round6 (q : ℚ) : ℚ := (roundHalfEven (q * 1000000) : ℚ) / 1000000

/-- The intraday return `security.Close / open - 1` computed in
`PumpAndDumpAlphaModel.Update`. -/
def intradayReturn (o : PriceObservation) : ℚ := o.closePrice / o.openPrice - 1

/-- The guard of `PumpAndDumpAlphaModel.Update`: the observation is used
only when `security.HasData` and `open != 0`. -/
def validObs (o : PriceObservation) : Bool := o.hasData && decide (o.openPrice ≠ 0)

/-- The key sequence of an association list modelling a Python `dict`. -/
def dictKeys (d : List (SymbolId × ℚ)) : List SymbolId := d.map Prod.fst

/-- Python `d[k] = v` on an insertion-ordered `dict`: an existing key
keeps its position and gets the new value, a new key is appended. -/
def dictInsert (d : List (SymbolId × ℚ)) (k : SymbolId) (v : ℚ) : List (SymbolId × ℚ) :=
  if k ∈ dictKeys d then d.map fun p => if p.1 = k then (k, v) else p
  else d ++ [(k, v)]

/-- Python `d[k]` lookup (first, hence unique, occurrence of the key). -/
def dictFind : List (SymbolId × ℚ) → SymbolId → Option ℚ
  | [], _ => none
  | p :: d, s => if p.1 = s then some p.2 else dictFind d s

/-- One iteration of the loop of `PumpAndDumpAlphaModel.Update`: record
`symbolsRet[security.Symbol] = security.Close / open - 1` when the guard
holds, leave the dictionary alone otherwise. -/
def updateDict (d : List (SymbolId × ℚ)) (o : PriceObservation) : List (SymbolId × ℚ) :=
  if validObs o then dictInsert d o.symbol (intradayReturn o) else d

/-- The `symbolsRet` dictionary built by the loop of
`PumpAndDumpAlphaModel.Update` over the active securities. -/
def symbolsRet (obs : List PriceObservation) : List (SymbolId × ℚ) :=
  obs.foldl updateDict []

/-- The sort order of `sorted(symbolsRet.items(), key = lambda kv:
(-round(kv[1], 6), kv[0]))`: ascending lexicographic order on the key
pair, i.e. rounded return descending, then identifier ascending. -/
def rankKeyLE (a b : SymbolId × ℚ) : Prop :=
  round6 b.2 < round6 a.2 ∨ (round6 a.2 = round6 b.2 ∧ a.1 ≤ b.1)

instance : DecidableRel rankKeyLE := fun a b =>
  inferInstanceAs (Decidable (round6 b.2 < round6 a.2 ∨ (round6 a.2 = round6 b.2 ∧ a.1 ≤ b.1)))

instance : IsTotal (SymbolId × ℚ) rankKeyLE where
  total a b := by
    rcases lt_trichotomy (round6 a.2) (round6 b.2) with h | h | h
    · exact Or.inr (Or.inl h)
    · rcases le_total a.1 b.1 with hs | hs
      · exact Or.inl (Or.inr ⟨h, hs⟩)
      · exact Or.inr (Or.inr ⟨h.symm, hs⟩)
    · exact Or.inl (Or.inl h)

instance : IsTrans (SymbolId × ℚ) rankKeyLE where
  trans a b c hab hbc := by
    rcases hab with hab | ⟨hab, hab'⟩ <;> rcases hbc with hbc | ⟨hbc, hbc'⟩
    · exact Or.inl (hbc.trans hab)
    · exact Or.inl (hbc ▸ hab)
    · exact Or.inl (hab ▸ hbc)
    · exact Or.inr ⟨hbc ▸ hab, hab'.trans hbc'⟩

/-- Python list slice `l[0:n]` for an arbitrary integer bound `n`
(negative bounds count from the end of the list). -/
def pySlice {α : Type} (n : ℤ) (l : List α) : List α :=
  if 0 ≤ n then l.take n.toNat else l.take (l.length - n.natAbs)

/-- One day as a prediction-interval duration:
`Extensions.ToTimeSpan(Resolution.Daily)`. -/
def resolutionDailyTimeSpan : ℚ := 1

/-- The state of `PumpAndDumpAlphaModel`: the two attributes set by
`__init__` and read (never written) by `Update`. -/
structure PumpAndDumpAlphaModel where
  predictionInterval : ℚ
  numberOfStocks : ℤ
  deriving DecidableEq, Repr

namespace PumpAndDumpAlphaModel

/-- The constructor `PumpAndDumpAlphaModel.__init__`: keyword arguments
`lookback`, `resolution`, `numberOfStocks` default to `1`,
`Resolution.Daily`, `10`; `predictionInterval =
Time.Multiply(Extensions.ToTimeSpan(resolution), lookback)`.
No value is validated. -/
def init (lookback : Option ℤ) (resolution : Option ℚ) (numberOfStocks : Option ℤ) :
    PumpAndDumpAlphaModel :=
  { predictionInterval := resolution.getD resolutionDailyTimeSpan * ((lookback.getD 1 : ℤ) : ℚ)
    numberOfStocks := numberOfStocks.getD 10 }

/-- The sorted ranking `sorted(symbolsRet.items(), key = lambda kv:
(-round(kv[1], 6), kv[0]))` of `PumpAndDumpAlphaModel.Update`. -/
def rankedReturns (obs : List PriceObservation) : List (SymbolId × ℚ) :=
  List.insertionSort rankKeyLE (symbolsRet obs)

/-- The record `Insight.Price(key, self.predictionInterval,
InsightDirection.Down, value, None)` appended for one selected entry. -/
def mkInsight (m : PumpAndDumpAlphaModel) (kv : SymbolId × ℚ) : InsightRecord :=
  { symbol := kv.1
    predictionInterval := m.predictionInterval
    direction := InsightDirection.Down
    magnitude := kv.2
    confidence := none }

/-- The insight list returned by `PumpAndDumpAlphaModel.Update`: the
ranking truncated by the slice `[0:self.numberOfStocks]` (converting the
slice to a `dict` and iterating its items preserves the sequence, keys
being already unique), one Down insight per kept entry. -/
def Update (m : PumpAndDumpAlphaModel) (obs : List PriceObservation) : List InsightRecord :=
  (pySlice m.numberOfStocks (rankedReturns obs)).map (mkInsight m)

/-- The full method call, state included: the body of `Update` reads
`self.predictionInterval` and `self.numberOfStocks` but assigns no
attribute of `self`, so the post-call state is the pre-call state. -/
def UpdateCall (m : PumpAndDumpAlphaModel) (obs : List PriceObservation) :
    PumpAndDumpAlphaModel × List InsightRecord :=
  (m, Update m obs)

end PumpAndDumpAlphaModel

/-- One candidate record of the coarse universe snapshot handed to
`PennyStockUniverseSelectionModel.SelectCoarse`: `x.Symbol`,
`x.HasFundamentalData`, `x.Volume`, `x.Price`, `x.DollarVolume`. -/
structure CoarseFundamental where
  symbol : SymbolId
  hasFundamentalData : Bool
  volume : ℚ
  price : ℚ
  dollarVolume : ℚ
  deriving DecidableEq, Repr

/-- The state of `PennyStockUniverseSelectionModel`: the three
attributes set by `__init__` and updated by `SelectCoarse`. -/
structure PennyStockUniverseSelectionModel where
  numberOfSymbolsCoarse : ℕ
  lastMonth : ℤ
  symbols : List SymbolId
  deriving DecidableEq, Repr

namespace PennyStockUniverseSelectionModel

/-- The constructor `PennyStockUniverseSelectionModel.__init__`. -/
def init : PennyStockUniverseSelectionModel :=
  { numberOfSymbolsCoarse := 500
    lastMonth := -1
    symbols := [] }

/-- The filter predicate of `SelectCoarse`: `x.HasFundamentalData and
1000000 > x.Volume > 10000 and 5 > x.Price > 0`. -/
def coarseCondition (x : CoarseFundamental) : Bool :=
  x.hasFundamentalData && (decide (x.volume < 1000000) && decide (10000 < x.volume))
    && (decide (x.price < 5) && decide (0 < x.price))

/-- The list comprehension `filtered` of `SelectCoarse`. -/
def filteredCoarse (coarse : List CoarseFundamental) : List CoarseFundamental :=
  coarse.filter coarseCondition

/-- The sort order of `sorted(filtered, key=lambda x: x.DollarVolume,
reverse=True)`: dollar volume descending; Python's sort is stable, so
ties keep input order. -/
def dvRel (a b : CoarseFundamental) : Prop := b.dollarVolume ≤ a.dollarVolume

instance : DecidableRel dvRel := fun a b =>
  inferInstanceAs (Decidable (b.dollarVolume ≤ a.dollarVolume))

instance : IsTotal CoarseFundamental dvRel where
  total a b := le_total b.dollarVolume a.dollarVolume

instance : IsTrans CoarseFundamental dvRel where
  trans _ _ _ hab hbc := le_trans hbc hab

/-- The sorted filtered candidate list of `SelectCoarse`, before the
`[:self.numberOfSymbolsCoarse]` truncation. -/
def sortedByDollarVolume (coarse : List CoarseFundamental) : List CoarseFundamental :=
  List.insertionSort dvRel (filteredCoarse coarse)

/-- The method `SelectCoarse` (month taken from `algorithm.Time.month`):
return the cached `self.symbols` when the month is unchanged, otherwise
filter, sort by dollar volume descending, take the top
`numberOfSymbolsCoarse`, store and return the symbols. -/
def SelectCoarse (st : PennyStockUniverseSelectionModel) (month : ℤ)
    (coarse : List CoarseFundamental) :
    PennyStockUniverseSelectionModel × List SymbolId :=
  if month = st.lastMonth then (st, st.symbols)
  else
    let top := (sortedByDollarVolume coarse).take st.numberOfSymbolsCoarse
    let syms := top.map (·.symbol)
    ({ st with lastMonth := month, symbols := syms }, syms)

end PennyStockUniverseSelectionModel

/-- The TrackedSet invariant of the spec: at most the configured cap of
symbols, and no duplicate identifiers. -/
def UniverseInvariant (st : PennyStockUniverseSelectionModel) : Prop :=
  st.symbols.length ≤ st.numberOfSymbolsCoarse ∧ st.symbols.Nodup

instance (st : PennyStockUniverseSelectionModel) : Decidable (UniverseInvariant st) :=
  inferInstanceAs (Decidable (st.symbols.length ≤ st.numberOfSymbolsCoarse ∧ st.symbols.Nodup))

/-- Modelled from the spec: the validating constructor the error-handling
design calls for, absent from the source — malformed configuration, in
particular `numberOfStocks <= 0`, "should be rejected at construction
time with a configuration error". -/
def initChecked (lookback : Option ℤ) (resolution : Option ℚ) (numberOfStocks : Option ℤ) :
    Except String PumpAndDumpAlphaModel :=
  let m := PumpAndDumpAlphaModel.init lookback resolution numberOfStocks
  if m.numberOfStocks ≤ 0 then Except.error "numberOfStocks must be positive" else Except.ok m

/-- A sample valid observation used by the witness theorems. -/
def sampleObsA : PriceObservation := ⟨"A", 1, 11 / 10, true⟩

/-- A second sample valid observation. -/
def sampleObsB : PriceObservation := ⟨"B", 1, 21 / 20, true⟩

/-- A sample observation with a zero open price. -/
def sampleObsZero : PriceObservation := ⟨"D", 0, 3, true⟩

/-- The alpha model built with all keyword arguments defaulted. -/
def sampleModel : PumpAndDumpAlphaModel := PumpAndDumpAlphaModel.init none none none

/-- A sample universe-selection state whose cache was refreshed in
month 3. -/
def sampleState : PennyStockUniverseSelectionModel := ⟨500, 3, ["X"]⟩

/-- A sample candidate passing every filter condition. -/
def sampleCoarseA : CoarseFundamental := ⟨"Y", true, 20000, 2, 40000⟩

/-- A sample candidate sitting exactly on the lower volume bound. -/
def sampleCoarseEdge : CoarseFundamental := ⟨"Z", true, 10000, 2, 20000⟩

/-! Helper lemmas about the dictionary model. -/

theorem dictKeys_map_update (d : List (SymbolId × ℚ)) (k : SymbolId) (v : ℚ) :
    dictKeys (d.map fun p => if p.1 = k then (k, v) else p) = dictKeys d := by
  unfold dictKeys
  rw [List.map_map]
  refine List.map_congr_left fun p _ => ?_
  by_cases hp : p.1 = k
  · simp [hp]
  · simp [hp]

theorem dictKeys_dictInsert (d : List (SymbolId × ℚ)) (k : SymbolId) (v : ℚ) :
    dictKeys (dictInsert d k v) =
      if k ∈ dictKeys d then dictKeys d else dictKeys d ++ [k] := by
  by_cases hk : k ∈ dictKeys d
  · rw [dictInsert, if_pos hk, if_pos hk, dictKeys_map_update]
  · rw [dictInsert, if_neg hk, if_neg hk]
    unfold dictKeys
    simp

theorem nodup_dictKeys_dictInsert {d : List (SymbolId × ℚ)} (k : SymbolId) (v : ℚ)
    (h : (dictKeys d).Nodup) : (dictKeys (dictInsert d k v)).Nodup := by
  rw [dictKeys_dictInsert]
  by_cases hk : k ∈ dictKeys d
  · rw [if_pos hk]
    exact h
  · rw [if_neg hk]
    rw [List.nodup_append]
    refine ⟨h, List.nodup_singleton k, ?_⟩
    intro a ha hb
    rw [List.mem_singleton] at hb
    exact hk (hb ▸ ha)

theorem nodup_dictKeys_updateDict {d : List (SymbolId × ℚ)} (o : PriceObservation)
    (h : (dictKeys d).Nodup) : (dictKeys (updateDict d o)).Nodup := by
  unfold updateDict
  split
  · exact nodup_dictKeys_dictInsert _ _ h
  · exact h

theorem nodup_dictKeys_foldl (obs : List PriceObservation) :
    ∀ d : List (SymbolId × ℚ), (dictKeys d).Nodup → (dictKeys (obs.foldl updateDict d)).Nodup := by
  induction obs with
  | nil => exact fun d h => h
  | cons o obs ih =>
    intro d h
    rw [List.foldl_cons]
    exact ih _ (nodup_dictKeys_updateDict o h)

theorem nodup_dictKeys_symbolsRet (obs : List PriceObservation) :
    (dictKeys (symbolsRet obs)).Nodup :=
  nodup_dictKeys_foldl obs [] (by simp [dictKeys])

theorem mem_dictInsert {d : List (SymbolId × ℚ)} {k : SymbolId} {v : ℚ} {kv : SymbolId × ℚ}
    (h : kv ∈ dictInsert d k v) : kv ∈ d ∨ kv = (k, v) := by
  unfold dictInsert at h
  split at h
  · rcases List.mem_map.mp h with ⟨p, hp, he⟩
    by_cases hpk : p.1 = k
    · rw [if_pos hpk] at he
      exact Or.inr he.symm
    · rw [if_neg hpk] at he
      exact Or.inl (he ▸ hp)
  · rcases List.mem_append.mp h with h | h
    · exact Or.inl h
    · exact Or.inr (List.mem_singleton.mp h)

theorem mem_updateDict {d : List (SymbolId × ℚ)} {o : PriceObservation} {kv : SymbolId × ℚ}
    (h : kv ∈ updateDict d o) :
    kv ∈ d ∨ (validObs o ∧ kv = (o.symbol, intradayReturn o)) := by
  unfold updateDict at h
  split at h
  · rcases mem_dictInsert h with h | h
    · exact Or.inl h
    · exact Or.inr ⟨‹validObs o = true›, h⟩
  · exact Or.inl h

theorem mem_foldl_updateDict {kv : SymbolId × ℚ} (obs : List PriceObservation) :
    ∀ d : List (SymbolId × ℚ), kv ∈ obs.foldl updateDict d →
      kv ∈ d ∨ ∃ o ∈ obs, validObs o ∧ kv = (o.symbol, intradayReturn o) := by
  induction obs with
  | nil => exact fun d h => Or.inl h
  | cons o obs ih =>
    intro d h
    rw [List.foldl_cons] at h
    rcases ih _ h with h | ⟨o', ho', hv, he⟩
    · rcases mem_updateDict h with h | ⟨hv, he⟩
      · exact Or.inl h
      · exact Or.inr ⟨o, List.mem_cons_self o obs, hv, he⟩
    · exact Or.inr ⟨o', List.mem_cons_of_mem o ho', hv, he⟩

theorem mem_symbolsRet {kv : SymbolId × ℚ} {obs : List PriceObservation}
    (h : kv ∈ symbolsRet obs) :
    ∃ o ∈ obs, validObs o ∧ kv = (o.symbol, intradayReturn o) := by
  rcases mem_foldl_updateDict obs [] h with h | h
  · cases h
  · exact h

theorem dictFind_map_update_ne {d : List (SymbolId × ℚ)} {k s : SymbolId} (v : ℚ)
    (hne : k ≠ s) :
    dictFind (d.map fun p => if p.1 = k then (k, v) else p) s = dictFind d s := by
  induction d with
  | nil => rfl
  | cons p d ih =>
    obtain ⟨pk, pv⟩ := p
    by_cases hp : pk = k
    · subst hp
      have hhead : (if ((pk, pv) : SymbolId × ℚ).1 = pk then ((pk, v) : SymbolId × ℚ)
          else (pk, pv)) = (pk, v) := if_pos rfl
      rw [List.map_cons, hhead]
      simp [dictFind, hne, ih]
    · have hhead : (if ((pk, pv) : SymbolId × ℚ).1 = k then ((k, v) : SymbolId × ℚ)
          else (pk, pv)) = (pk, pv) := if_neg hp
      rw [List.map_cons, hhead]
      simp [dictFind, ih]

theorem dictFind_map_update_self {d : List (SymbolId × ℚ)} {k : SymbolId} (v : ℚ)
    (hmem : k ∈ dictKeys d) :
    dictFind (d.map fun p => if p.1 = k then (k, v) else p) k = some v := by
  induction d with
  | nil => cases hmem
  | cons p d ih =>
    obtain ⟨pk, pv⟩ := p
    by_cases hp : pk = k
    · subst hp
      have hhead : (if ((pk, pv) : SymbolId × ℚ).1 = pk then ((pk, v) : SymbolId × ℚ)
          else (pk, pv)) = (pk, v) := if_pos rfl
      rw [List.map_cons, hhead]
      simp [dictFind]
    · rcases List.mem_cons.mp hmem with h | h
      · exact absurd h.symm hp
      · have hhead : (if ((pk, pv) : SymbolId × ℚ).1 = k then ((k, v) : SymbolId × ℚ)
            else (pk, pv)) = (pk, pv) := if_neg hp
        rw [List.map_cons, hhead]
        simp [dictFind, hp, ih h]

theorem dictFind_append_single {d : List (SymbolId × ℚ)} {k : SymbolId} (v : ℚ) (s : SymbolId)
    (hk : k ∉ dictKeys d) :
    dictFind (d ++ [(k, v)]) s = if k = s then some v else dictFind d s := by
  induction d with
  | nil => rfl
  | cons p d ih =>
    obtain ⟨pk, pv⟩ := p
    have hk' : k ∉ dictKeys d := fun h => hk (List.mem_cons_of_mem pk h)
    have hkp : k ≠ pk := fun h => hk (h ▸ List.mem_cons_self pk (dictKeys d))
    by_cases hps : pk = s
    · subst hps
      simp [dictFind, hkp, ih hk']
    · simp [dictFind, hps, ih hk']

theorem dictFind_dictInsert (d : List (SymbolId × ℚ)) (k : SymbolId) (v : ℚ) (s : SymbolId) :
    dictFind (dictInsert d k v) s = if k = s then some v else dictFind d s := by
  by_cases hk : k ∈ dictKeys d
  · rw [dictInsert, if_pos hk]
    by_cases hks : k = s
    · subst hks
      rw [if_pos rfl, dictFind_map_update_self v hk]
    · rw [if_neg hks, dictFind_map_update_ne v hks]
  · rw [dictInsert, if_neg hk, dictFind_append_single v s hk]

theorem dictFind_of_mem {d : List (SymbolId × ℚ)} {k : SymbolId} {v : ℚ}
    (hnd : (dictKeys d).Nodup) (h : (k, v) ∈ d) : dictFind d k = some v := by
  induction d with
  | nil => cases h
  | cons p d ih =>
    obtain ⟨pk, pv⟩ := p
    rcases List.mem_cons.mp h with he | hm
    · rw [Prod.mk.injEq] at he
      obtain ⟨h1, h2⟩ := he
      subst h1
      subst h2
      simp [dictFind]
    · have hpk : pk ≠ k := by
        intro hc
        have : k ∈ dictKeys d := List.mem_map.mpr ⟨(k, v), hm, rfl⟩
        exact (List.nodup_cons.mp hnd).1 (hc ▸ this)
      simp [dictFind, hpk, ih (List.nodup_cons.mp hnd).2 hm]

theorem getLast?_cons_or (a : PriceObservation) (l : List PriceObservation) :
    (a :: l).getLast? = l.getLast?.or (some a) := by
  cases l with
  | nil => rfl
  | cons b l =>
    rw [List.getLast?_cons_cons]
    cases h : (b :: l).getLast? with
    | none => exact absurd h (by simp [List.getLast?_cons])
    | some c => rfl

theorem dictFind_updateDict (d : List (SymbolId × ℚ)) (o : PriceObservation) (s : SymbolId) :
    dictFind (updateDict d o) s =
      if validObs o && decide (o.symbol = s) then some (intradayReturn o) else dictFind d s := by
  unfold updateDict
  by_cases hv : validObs o
  · rw [if_pos hv, dictFind_dictInsert]
    by_cases hs : o.symbol = s
    · rw [if_pos hs, if_pos (by simp [hv, hs])]
    · rw [if_neg hs, if_neg (by simp [hs])]
  · rw [if_neg hv, if_neg (by simp [hv])]

theorem dictFind_foldl_updateDict (obs : List PriceObservation) :
    ∀ (d : List (SymbolId × ℚ)) (s : SymbolId),
      dictFind (obs.foldl updateDict d) s =
        (((obs.filter fun o => validObs o && decide (o.symbol = s)).getLast?).map
          intradayReturn).or (dictFind d s) := by
  induction obs with
  | nil => intro d s; rfl
  | cons o obs ih =>
    intro d s
    rw [List.foldl_cons, ih, dictFind_updateDict]
    by_cases hP : (validObs o && decide (o.symbol = s)) = true
    · rw [if_pos hP,
        List.filter_cons_of_pos (p := fun o => validObs o && decide (o.symbol = s)) hP,
        getLast?_cons_or, Option.map_or']
      cases h : (List.filter (fun o => validObs o && decide (o.symbol = s)) obs).getLast? with
      | none => rfl
      | some c => rfl
    · rw [if_neg hP,
        List.filter_cons_of_neg (p := fun o => validObs o && decide (o.symbol = s))
          (by simpa using hP)]

theorem dictFind_symbolsRet (obs : List PriceObservation) (s : SymbolId) :
    dictFind (symbolsRet obs) s =
      ((obs.filter fun o => validObs o && decide (o.symbol = s)).getLast?).map intradayReturn := by
  rw [symbolsRet, dictFind_foldl_updateDict]
  exact Option.or_none

theorem foldl_updateDict_filter (obs : List PriceObservation) :
    ∀ d : List (SymbolId × ℚ),
      obs.foldl updateDict d = (obs.filter validObs).foldl updateDict d := by
  induction obs with
  | nil => intro d; rfl
  | cons o obs ih =>
    intro d
    have h0 : ¬validObs o = true → updateDict d o = d := fun hv => by
      unfold updateDict
      rw [if_neg hv]
    by_cases hv : validObs o
    · rw [List.filter_cons_of_pos (p := validObs) hv, List.foldl_cons, List.foldl_cons, ih]
    · rw [List.filter_cons_of_neg (p := validObs) (by simpa using hv), List.foldl_cons, h0 hv,
        ih]

theorem symbolsRet_filter_valid (obs : List PriceObservation) :
    symbolsRet obs = symbolsRet (obs.filter validObs) :=
  foldl_updateDict_filter obs []

/-- Sanity check of the rounding model on a 6-decimal boundary case. -/
theorem round6_sample : round6 (1234567 / 1000000000) = 1235 / 1000000 := by
  with_unfolding_all rfl

/-- The spec's own top-K test vector: observations A (+10%), B (+5%),
C (-10%) with `numberOfStocks = 2` yield Down insights for A then B with
the exact returns as magnitudes. -/
theorem update_spec_sample :
    PumpAndDumpAlphaModel.Update (PumpAndDumpAlphaModel.init none none (some 2))
      [⟨"A", 1, 11 / 10, true⟩, ⟨"B", 1, 21 / 20, true⟩, ⟨"C", 1, 9 / 10, true⟩] =
    [⟨"A", 1, InsightDirection.Down, 1 / 10, none⟩,
     ⟨"B", 1, InsightDirection.Down, 1 / 20, none⟩] := by with_unfolding_all rfl

/-! Helper lemmas about the ranking sort and slicing. -/

theorem pySlice_sublist {α : Type} (n : ℤ) (l : List α) : List.Sublist (pySlice n l) l := by
  unfold pySlice
  split
  · exact List.take_sublist _ _
  · exact List.take_sublist _ _

theorem mem_pySlice {α : Type} {a : α} {n : ℤ} {l : List α} (h : a ∈ pySlice n l) : a ∈ l :=
  (pySlice_sublist n l).subset h

theorem pairwise_rankedReturns (obs : List PriceObservation) :
    (PumpAndDumpAlphaModel.rankedReturns obs).Pairwise rankKeyLE :=
  List.sorted_insertionSort rankKeyLE (symbolsRet obs)

theorem perm_rankedReturns (obs : List PriceObservation) :
    List.Perm (PumpAndDumpAlphaModel.rankedReturns obs) (symbolsRet obs) :=
  List.perm_insertionSort rankKeyLE (symbolsRet obs)

theorem mem_rankedReturns {kv : SymbolId × ℚ} {obs : List PriceObservation} :
    kv ∈ PumpAndDumpAlphaModel.rankedReturns obs ↔ kv ∈ symbolsRet obs :=
  (perm_rankedReturns obs).mem_iff

theorem nodup_keys_rankedReturns (obs : List PriceObservation) :
    ((PumpAndDumpAlphaModel.rankedReturns obs).map Prod.fst).Nodup :=
  (((perm_rankedReturns obs).map Prod.fst).symm).nodup (nodup_dictKeys_symbolsRet obs)

theorem mem_update_decompose {m : PumpAndDumpAlphaModel} {obs : List PriceObservation}
    {i : InsightRecord} (hi : i ∈ PumpAndDumpAlphaModel.Update m obs) :
    ∃ kv ∈ symbolsRet obs, i = PumpAndDumpAlphaModel.mkInsight m kv := by
  unfold PumpAndDumpAlphaModel.Update at hi
  rcases List.mem_map.mp hi with ⟨kv, hkv, he⟩
  exact ⟨kv, mem_rankedReturns.mp (mem_pySlice hkv), he.symm⟩

/-! Claim theorems. -/

/-- C9: `Update` is a pure function of its input snapshot: the call
leaves the model state — in particular `predictionInterval` and
`numberOfStocks` — unchanged, and a second call on the resulting state
with the same observations returns the same insights. -/
theorem update_is_pure (m : PumpAndDumpAlphaModel) (obs : List PriceObservation) :
    (PumpAndDumpAlphaModel.UpdateCall m obs).1 = m ∧
    (PumpAndDumpAlphaModel.UpdateCall m obs).1.predictionInterval = m.predictionInterval ∧
    (PumpAndDumpAlphaModel.UpdateCall m obs).1.numberOfStocks = m.numberOfStocks ∧
    (PumpAndDumpAlphaModel.UpdateCall (PumpAndDumpAlphaModel.UpdateCall m obs).1 obs).2 =
      (PumpAndDumpAlphaModel.UpdateCall m obs).2 :=
  ⟨rfl, rfl, rfl, rfl⟩

/-- C6: observations with `hasData == false` or `open == 0` contribute
nothing to the ranking: deleting them from the input changes neither the
`symbolsRet` dictionary nor the emitted insights, and the guard
`validObs` fails exactly on such observations (so `close / open` is
computed only when `open != 0`). -/
theorem rank_excludes_invalid (m : PumpAndDumpAlphaModel) (obs : List PriceObservation) :
    PumpAndDumpAlphaModel.Update m obs =
      PumpAndDumpAlphaModel.Update m (obs.filter validObs) ∧
    symbolsRet obs = symbolsRet (obs.filter validObs) ∧
    ∀ o : PriceObservation, validObs o = false ↔ (o.hasData = false ∨ o.openPrice = 0) := by
  have h := symbolsRet_filter_valid obs
  refine ⟨?_, h, ?_⟩
  · unfold PumpAndDumpAlphaModel.Update PumpAndDumpAlphaModel.rankedReturns
    rw [h]
  · intro o
    unfold validObs
    cases h : o.hasData <;> simp [h]

/-- C3: when `SelectCoarse` is called with a month equal to the cached
`lastMonth`, it returns the cached symbols and leaves the state
untouched, whatever the candidates; and any two calls with the same
month (the first of which may refresh the cache) return identical
states and results even with different candidates on the second call. -/
theorem select_monthly_cache (st st' : PennyStockUniverseSelectionModel) (month : ℤ)
    (c1 c2 : List CoarseFundamental) (h : st.lastMonth = month) :
    PennyStockUniverseSelectionModel.SelectCoarse st month c1 = (st, st.symbols) ∧
    PennyStockUniverseSelectionModel.SelectCoarse
        (PennyStockUniverseSelectionModel.SelectCoarse st' month c1).1 month c2 =
      ((PennyStockUniverseSelectionModel.SelectCoarse st' month c1).1,
        (PennyStockUniverseSelectionModel.SelectCoarse st' month c1).2) := by
  constructor
  · rw [PennyStockUniverseSelectionModel.SelectCoarse, if_pos h.symm]
  · by_cases hm : month = st'.lastMonth
    · simp [PennyStockUniverseSelectionModel.SelectCoarse, hm]
    · simp [PennyStockUniverseSelectionModel.SelectCoarse, hm]

/-- Witness for C3 at concrete inputs: the cached month is hit and the
cached symbols are returned. -/
theorem select_monthly_cache_witness :
    sampleState.lastMonth = 3 ∧
    (PennyStockUniverseSelectionModel.SelectCoarse sampleState 3 [] =
        (sampleState, sampleState.symbols) ∧
      PennyStockUniverseSelectionModel.SelectCoarse
          (PennyStockUniverseSelectionModel.SelectCoarse sampleState 3 [] ).1 3 [sampleCoarseA] =
        ((PennyStockUniverseSelectionModel.SelectCoarse sampleState 3 [] ).1,
          (PennyStockUniverseSelectionModel.SelectCoarse sampleState 3 [] ).2)) :=
  ⟨rfl, select_monthly_cache sampleState sampleState 3 [] [sampleCoarseA] rfl⟩

/-- C4: on a month change the kept candidates are exactly those with
fundamental data, volume strictly between 10000 and 1000000 and price
strictly between 0 and 5; candidates sitting exactly on any bound are
excluded, and every returned symbol comes from a candidate that passed
the filter. -/
theorem select_filter_strict (st : PennyStockUniverseSelectionModel) (month : ℤ)
    (coarse : List CoarseFundamental) (h : month ≠ st.lastMonth) :
    (∀ x : CoarseFundamental,
      x ∈ PennyStockUniverseSelectionModel.filteredCoarse coarse ↔
        x ∈ coarse ∧ x.hasFundamentalData = true ∧ x.volume < 1000000 ∧ 10000 < x.volume ∧
          x.price < 5 ∧ 0 < x.price) ∧
    (∀ x : CoarseFundamental,
      x.volume = 1000000 ∨ x.volume = 10000 ∨ x.price = 5 ∨ x.price = 0 →
        x ∉ PennyStockUniverseSelectionModel.filteredCoarse coarse) ∧
    (∀ s ∈ (PennyStockUniverseSelectionModel.SelectCoarse st month coarse).2,
      ∃ x ∈ PennyStockUniverseSelectionModel.filteredCoarse coarse, x.symbol = s) := by
  have hmem : ∀ x : CoarseFundamental,
      x ∈ PennyStockUniverseSelectionModel.filteredCoarse coarse ↔
        x ∈ coarse ∧ x.hasFundamentalData = true ∧ x.volume < 1000000 ∧ 10000 < x.volume ∧
          x.price < 5 ∧ 0 < x.price := by
    intro x
    unfold PennyStockUniverseSelectionModel.filteredCoarse
    rw [List.mem_filter]
    unfold PennyStockUniverseSelectionModel.coarseCondition
    simp [and_assoc]
  refine ⟨hmem, ?_, ?_⟩
  · intro x hbad hx
    rcases (hmem x).mp hx with ⟨-, -, h1, h2, h3, h4⟩
    rcases hbad with hb | hb | hb | hb
    · rw [hb] at h1
      exact lt_irrefl _ h1
    · rw [hb] at h2
      exact lt_irrefl _ h2
    · rw [hb] at h3
      exact lt_irrefl _ h3
    · rw [hb] at h4
      exact lt_irrefl _ h4
  · intro s hs
    rw [PennyStockUniverseSelectionModel.SelectCoarse, if_neg h] at hs
    simp only at hs
    rcases List.mem_map.mp hs with ⟨x, hx, he⟩
    have hx' : x ∈ PennyStockUniverseSelectionModel.sortedByDollarVolume coarse :=
      List.mem_of_mem_take hx
    rw [PennyStockUniverseSelectionModel.sortedByDollarVolume, List.mem_insertionSort] at hx'
    exact ⟨x, hx', he⟩

/-- Witness for C4: a fresh month with one passing and one
boundary-volume candidate. -/
theorem select_filter_strict_witness :
    ((7 : ℤ) ≠ sampleState.lastMonth) ∧
    ((∀ x : CoarseFundamental,
      x ∈ PennyStockUniverseSelectionModel.filteredCoarse [sampleCoarseA, sampleCoarseEdge] ↔
        x ∈ [sampleCoarseA, sampleCoarseEdge] ∧ x.hasFundamentalData = true ∧
          x.volume < 1000000 ∧ 10000 < x.volume ∧ x.price < 5 ∧ 0 < x.price) ∧
    (∀ x : CoarseFundamental,
      x.volume = 1000000 ∨ x.volume = 10000 ∨ x.price = 5 ∨ x.price = 0 →
        x ∉ PennyStockUniverseSelectionModel.filteredCoarse [sampleCoarseA, sampleCoarseEdge]) ∧
    (∀ s ∈ (PennyStockUniverseSelectionModel.SelectCoarse sampleState 7
        [sampleCoarseA, sampleCoarseEdge]).2,
      ∃ x ∈ PennyStockUniverseSelectionModel.filteredCoarse [sampleCoarseA, sampleCoarseEdge],
        x.symbol = s)) :=
  ⟨by decide, select_filter_strict sampleState 7 [sampleCoarseA, sampleCoarseEdge] (by decide)⟩

theorem length_rankedReturns (obs : List PriceObservation) :
    (PumpAndDumpAlphaModel.rankedReturns obs).length = (symbolsRet obs).length :=
  List.length_insertionSort rankKeyLE (symbolsRet obs)

/-- C2: every emitted insight has direction Down, the configured
prediction interval, no confidence, and a magnitude equal to the exact
unrounded intraday return `close / open - 1` of a valid observation with
its identifier — the 6-decimal rounding is only a ranking key. -/
theorem insights_down_unrounded (m : PumpAndDumpAlphaModel) (obs : List PriceObservation) :
    ∀ i ∈ PumpAndDumpAlphaModel.Update m obs,
      i.direction = InsightDirection.Down ∧
      i.predictionInterval = m.predictionInterval ∧
      i.confidence = none ∧
      ∃ o ∈ obs, o.hasData = true ∧ o.openPrice ≠ 0 ∧ o.symbol = i.symbol ∧
        i.magnitude = o.closePrice / o.openPrice - 1 := by
  intro i hi
  rcases mem_update_decompose hi with ⟨kv, hkv, rfl⟩
  rcases mem_symbolsRet hkv with ⟨o, ho, hv, he⟩
  rw [validObs, Bool.and_eq_true] at hv
  subst he
  exact ⟨rfl, rfl, rfl, o, ho, hv.1, of_decide_eq_true hv.2, rfl, rfl⟩

/-- Witness for C2 at a concrete input: the single valid observation
yields one Down insight carrying the exact return. -/
theorem insights_down_unrounded_witness :
    ((⟨"A", 1, InsightDirection.Down, 1 / 10, none⟩ : InsightRecord) ∈
      PumpAndDumpAlphaModel.Update sampleModel [sampleObsA]) ∧
    ((⟨"A", 1, InsightDirection.Down, 1 / 10, none⟩ : InsightRecord).direction =
        InsightDirection.Down ∧
      (⟨"A", 1, InsightDirection.Down, 1 / 10, none⟩ : InsightRecord).predictionInterval =
        sampleModel.predictionInterval ∧
      (⟨"A", 1, InsightDirection.Down, 1 / 10, none⟩ : InsightRecord).confidence = none ∧
      ∃ o ∈ [sampleObsA], o.hasData = true ∧ o.openPrice ≠ 0 ∧
        o.symbol = (⟨"A", 1, InsightDirection.Down, 1 / 10, none⟩ : InsightRecord).symbol ∧
        (⟨"A", 1, InsightDirection.Down, 1 / 10, none⟩ : InsightRecord).magnitude =
          o.closePrice / o.openPrice - 1) :=
  ⟨by with_unfolding_all decide,
    insights_down_unrounded sampleModel [sampleObsA] _ (by with_unfolding_all decide)⟩

/-- C10: at most one insight is emitted per identifier, and the value
ranked for an identifier is the return of the last valid observation
carrying it (later loop iterations overwrite earlier dictionary
entries); each emitted magnitude is exactly that stored value. -/
theorem one_insight_per_symbol (m : PumpAndDumpAlphaModel) (obs : List PriceObservation) :
    ((PumpAndDumpAlphaModel.Update m obs).map (fun i => i.symbol)).Nodup ∧
    (∀ s : SymbolId, dictFind (symbolsRet obs) s =
      ((obs.filter fun o => validObs o && decide (o.symbol = s)).getLast?).map
        intradayReturn) ∧
    ∀ i ∈ PumpAndDumpAlphaModel.Update m obs,
      dictFind (symbolsRet obs) i.symbol = some i.magnitude := by
  refine ⟨?_, dictFind_symbolsRet obs, ?_⟩
  · have h1 : (PumpAndDumpAlphaModel.Update m obs).map (fun i => i.symbol) =
        (pySlice m.numberOfStocks (PumpAndDumpAlphaModel.rankedReturns obs)).map Prod.fst := by
      unfold PumpAndDumpAlphaModel.Update
      rw [List.map_map]
      exact List.map_congr_left fun kv _ => rfl
    rw [h1]
    exact List.Nodup.sublist ((pySlice_sublist _ _).map Prod.fst)
      (nodup_keys_rankedReturns obs)
  · intro i hi
    rcases mem_update_decompose hi with ⟨kv, hkv, rfl⟩
    exact dictFind_of_mem (nodup_dictKeys_symbolsRet obs) hkv

/-- Witness for C10: two observations with the same identifier; the
second one's return is the one kept and emitted. -/
theorem one_insight_per_symbol_witness :
    ((⟨"A", 1, InsightDirection.Down, 2, none⟩ : InsightRecord) ∈
      PumpAndDumpAlphaModel.Update sampleModel [⟨"A", 1, 2, true⟩, ⟨"A", 1, 3, true⟩]) ∧
    dictFind (symbolsRet [⟨"A", 1, 2, true⟩, ⟨"A", 1, 3, true⟩]) "A" = some 2 :=
  ⟨by with_unfolding_all decide,
    (one_insight_per_symbol sampleModel [⟨"A", 1, 2, true⟩, ⟨"A", 1, 3, true⟩]).2.2
      (⟨"A", 1, InsightDirection.Down, 2, none⟩ : InsightRecord)
      (by with_unfolding_all decide)⟩

/-- C7 counterexample: the constructor does not reject a non-positive
`numberOfStocks`; with `numberOfStocks = 0` it succeeds where the
spec-modelled validating constructor errors, and the resulting model
silently emits no insights on a valid non-empty input. -/
theorem init_unvalidated_counterexample :
    initChecked none none (some 0) = Except.error "numberOfStocks must be positive" ∧
    PumpAndDumpAlphaModel.init none none (some 0) =
      { predictionInterval := 1, numberOfStocks := 0 } ∧
    PumpAndDumpAlphaModel.Update (PumpAndDumpAlphaModel.init none none (some 0))
      [sampleObsA] = [] := by
  refine ⟨?_, ?_, ?_⟩ <;> with_unfolding_all rfl

/-- C7 amended: construction performs no validation — any
`numberOfStocks <= 0` is accepted and stored; the model then returns no
insights when it is zero, and for a negative value the Python slice
drops entries from the end of the ranking instead of erroring. -/
theorem init_accepts_nonpositive (n : ℤ) (obs : List PriceObservation) (h : n ≤ 0) :
    (PumpAndDumpAlphaModel.init none none (some n)).numberOfStocks = n ∧
    (n = 0 →
      PumpAndDumpAlphaModel.Update (PumpAndDumpAlphaModel.init none none (some n)) obs
        = []) ∧
    (n < 0 →
      (PumpAndDumpAlphaModel.Update (PumpAndDumpAlphaModel.init none none (some n)) obs).length
        = (symbolsRet obs).length - n.natAbs) := by
  have hred : (PumpAndDumpAlphaModel.init none none (some n)).numberOfStocks = n := rfl
  refine ⟨rfl, ?_, ?_⟩
  · rintro rfl
    unfold PumpAndDumpAlphaModel.Update pySlice
    rw [hred]
    simp
  · intro hn
    unfold PumpAndDumpAlphaModel.Update pySlice
    rw [hred, List.length_map, if_neg (not_le.mpr hn), List.length_take,
      length_rankedReturns]
    exact min_eq_left (Nat.sub_le _ _)

/-- Witness for C7's amended statement at `numberOfStocks = 0`. -/
theorem init_accepts_nonpositive_witness :
    ((0 : ℤ) ≤ 0) ∧
    ((PumpAndDumpAlphaModel.init none none (some 0)).numberOfStocks = 0 ∧
      ((0 : ℤ) = 0 →
        PumpAndDumpAlphaModel.Update (PumpAndDumpAlphaModel.init none none (some 0))
          [sampleObsA] = []) ∧
      ((0 : ℤ) < 0 →
        (PumpAndDumpAlphaModel.Update (PumpAndDumpAlphaModel.init none none (some 0))
            [sampleObsA]).length = (symbolsRet [sampleObsA]).length - (0 : ℤ).natAbs)) :=
  ⟨le_rfl, init_accepts_nonpositive 0 [sampleObsA] le_rfl⟩

/-- C1: the emitted insights are strictly ordered by rounded return
descending with ties resolved by identifier ascending; exactly
`min numberOfStocks (number of distinct valid identifiers)` of them are
emitted, each comes from a ranked entry, and every emitted entry ranks
at least as high as every valid entry left out. -/
theorem rank_orders_and_truncates (m : PumpAndDumpAlphaModel) (obs : List PriceObservation)
    (hm : 0 ≤ m.numberOfStocks) :
    (PumpAndDumpAlphaModel.Update m obs).Pairwise
      (fun i j => round6 j.magnitude < round6 i.magnitude ∨
        (round6 i.magnitude = round6 j.magnitude ∧ i.symbol < j.symbol)) ∧
    (PumpAndDumpAlphaModel.Update m obs).length =
      min m.numberOfStocks.toNat (symbolsRet obs).length ∧
    (∀ i ∈ PumpAndDumpAlphaModel.Update m obs,
      ∃ kv ∈ symbolsRet obs, i = PumpAndDumpAlphaModel.mkInsight m kv) ∧
    (∀ i ∈ PumpAndDumpAlphaModel.Update m obs, ∀ kv ∈ symbolsRet obs,
      (∀ j ∈ PumpAndDumpAlphaModel.Update m obs, j.symbol ≠ kv.1) →
        rankKeyLE (i.symbol, i.magnitude) kv) := by
  have hpair := pairwise_rankedReturns obs
  have hslice : pySlice m.numberOfStocks (PumpAndDumpAlphaModel.rankedReturns obs) =
      (PumpAndDumpAlphaModel.rankedReturns obs).take m.numberOfStocks.toNat := by
    unfold pySlice
    rw [if_pos hm]
  have hne : (PumpAndDumpAlphaModel.rankedReturns obs).Pairwise
      (fun a b => a.1 ≠ b.1) :=
    List.pairwise_map.mp (nodup_keys_rankedReturns obs)
  have himp : ∀ a b : SymbolId × ℚ, rankKeyLE a b ∧ a.1 ≠ b.1 →
      round6 b.2 < round6 a.2 ∨ (round6 a.2 = round6 b.2 ∧ a.1 < b.1) := by
    rintro a b ⟨hle, hab⟩
    rcases hle with h | ⟨h1, h2⟩
    · exact Or.inl h
    · exact Or.inr ⟨h1, lt_of_le_of_ne h2 hab⟩
  have hstrict : (PumpAndDumpAlphaModel.rankedReturns obs).Pairwise
      (fun a b : SymbolId × ℚ =>
        round6 b.2 < round6 a.2 ∨ (round6 a.2 = round6 b.2 ∧ a.1 < b.1)) :=
    (hpair.and hne).imp fun h => himp _ _ h
  refine ⟨?_, ?_, fun i hi => mem_update_decompose hi, ?_⟩
  · unfold PumpAndDumpAlphaModel.Update
    rw [hslice]
    exact List.pairwise_map.mpr
      (List.Pairwise.sublist (List.take_sublist _ _) hstrict)
  · unfold PumpAndDumpAlphaModel.Update
    rw [hslice, List.length_map, List.length_take, length_rankedReturns]
  · intro i hi kv hkv hexcl
    unfold PumpAndDumpAlphaModel.Update at hi
    rcases List.mem_map.mp hi with ⟨kv0, hkv0, rfl⟩
    rw [hslice] at hkv0
    have hkv' : kv ∈ PumpAndDumpAlphaModel.rankedReturns obs := mem_rankedReturns.mpr hkv
    have hsplit := List.take_append_drop m.numberOfStocks.toNat
      (PumpAndDumpAlphaModel.rankedReturns obs)
    have hkvtd : kv ∈ (PumpAndDumpAlphaModel.rankedReturns obs).take m.numberOfStocks.toNat ∨
        kv ∈ (PumpAndDumpAlphaModel.rankedReturns obs).drop m.numberOfStocks.toNat := by
      have : kv ∈ (PumpAndDumpAlphaModel.rankedReturns obs).take m.numberOfStocks.toNat ++
          (PumpAndDumpAlphaModel.rankedReturns obs).drop m.numberOfStocks.toNat := by
        rw [hsplit]
        exact hkv'
      exact List.mem_append.mp this
    rcases hkvtd with htake | hdrop
    · have hjm : PumpAndDumpAlphaModel.mkInsight m kv ∈ PumpAndDumpAlphaModel.Update m obs := by
        unfold PumpAndDumpAlphaModel.Update
        rw [hslice]
        exact List.mem_map_of_mem _ htake
      exact absurd rfl (hexcl _ hjm)
    · have hpw : ((PumpAndDumpAlphaModel.rankedReturns obs).take m.numberOfStocks.toNat ++
          (PumpAndDumpAlphaModel.rankedReturns obs).drop m.numberOfStocks.toNat).Pairwise
            rankKeyLE := by
        rw [hsplit]
        exact hpair
      exact (List.pairwise_append.mp hpw).2.2 kv0 hkv0 kv hdrop

/-- Witness for C1 at a concrete two-observation input. -/
theorem rank_orders_and_truncates_witness :
    ((0 : ℤ) ≤ sampleModel.numberOfStocks) ∧
    ((PumpAndDumpAlphaModel.Update sampleModel [sampleObsA, sampleObsB]).Pairwise
      (fun i j => round6 j.magnitude < round6 i.magnitude ∨
        (round6 i.magnitude = round6 j.magnitude ∧ i.symbol < j.symbol)) ∧
    (PumpAndDumpAlphaModel.Update sampleModel [sampleObsA, sampleObsB]).length =
      min sampleModel.numberOfStocks.toNat (symbolsRet [sampleObsA, sampleObsB]).length ∧
    (∀ i ∈ PumpAndDumpAlphaModel.Update sampleModel [sampleObsA, sampleObsB],
      ∃ kv ∈ symbolsRet [sampleObsA, sampleObsB],
        i = PumpAndDumpAlphaModel.mkInsight sampleModel kv) ∧
    (∀ i ∈ PumpAndDumpAlphaModel.Update sampleModel [sampleObsA, sampleObsB],
      ∀ kv ∈ symbolsRet [sampleObsA, sampleObsB],
      (∀ j ∈ PumpAndDumpAlphaModel.Update sampleModel [sampleObsA, sampleObsB],
        j.symbol ≠ kv.1) →
        rankKeyLE (i.symbol, i.magnitude) kv)) :=
  ⟨by decide, rank_orders_and_truncates sampleModel [sampleObsA, sampleObsB] (by decide)⟩

/-- C5: `SelectCoarse` returns at most `numberOfSymbolsCoarse` symbols
(in both the cached and the refresh branch, given the cache already
respects the cap), the refreshed output is the dollar-volume-descending
sort of the filtered candidates truncated to the cap, and the sort is
stable: entries of equal dollar volume keep their input order. -/
theorem select_cap_sorted_stable (st : PennyStockUniverseSelectionModel) (month : ℤ)
    (coarse : List CoarseFundamental)
    (hcap : st.symbols.length ≤ st.numberOfSymbolsCoarse) (hm : month ≠ st.lastMonth) :
    (PennyStockUniverseSelectionModel.SelectCoarse st month coarse).2.length ≤
      st.numberOfSymbolsCoarse ∧
    (PennyStockUniverseSelectionModel.SelectCoarse st st.lastMonth coarse).2.length ≤
      st.numberOfSymbolsCoarse ∧
    (PennyStockUniverseSelectionModel.SelectCoarse st month coarse).2 =
      ((PennyStockUniverseSelectionModel.sortedByDollarVolume coarse).take
        st.numberOfSymbolsCoarse).map (fun x => x.symbol) ∧
    (PennyStockUniverseSelectionModel.sortedByDollarVolume coarse).Pairwise
      (fun a b => b.dollarVolume ≤ a.dollarVolume) ∧
    (∀ v : ℚ,
      (PennyStockUniverseSelectionModel.sortedByDollarVolume coarse).filter
        (fun x => decide (x.dollarVolume = v)) =
      (PennyStockUniverseSelectionModel.filteredCoarse coarse).filter
        (fun x => decide (x.dollarVolume = v))) ∧
    PennyStockUniverseSelectionModel.init.numberOfSymbolsCoarse = 500 := by
  have heq : (PennyStockUniverseSelectionModel.SelectCoarse st month coarse).2 =
      ((PennyStockUniverseSelectionModel.sortedByDollarVolume coarse).take
        st.numberOfSymbolsCoarse).map (fun x => x.symbol) := by
    rw [PennyStockUniverseSelectionModel.SelectCoarse, if_neg hm]
  refine ⟨?_, ?_, heq, ?_, ?_, rfl⟩
  · rw [heq, List.length_map]
    exact List.length_take_le _ _
  · rw [PennyStockUniverseSelectionModel.SelectCoarse, if_pos rfl]
    exact hcap
  · exact List.sorted_insertionSort PennyStockUniverseSelectionModel.dvRel _
  · intro v
    have hAfilter : ∀ x ∈ (PennyStockUniverseSelectionModel.filteredCoarse coarse).filter
        (fun x => decide (x.dollarVolume = v)), decide (x.dollarVolume = v) = true :=
      fun x hx => (List.mem_filter.mp hx).2
    have hApw : ((PennyStockUniverseSelectionModel.filteredCoarse coarse).filter
        (fun x => decide (x.dollarVolume = v))).Pairwise
          PennyStockUniverseSelectionModel.dvRel := by
      refine List.pairwise_of_forall_mem_list fun a ha b hb => ?_
      have h1 := of_decide_eq_true (hAfilter a ha)
      have h2 := of_decide_eq_true (hAfilter b hb)
      show b.dollarVolume ≤ a.dollarVolume
      rw [h1, h2]
    have hAsub := List.filter_sublist (p := fun x => decide (x.dollarVolume = v))
      (PennyStockUniverseSelectionModel.filteredCoarse coarse)
    have h1 : List.Sublist
        ((PennyStockUniverseSelectionModel.filteredCoarse coarse).filter
          (fun x => decide (x.dollarVolume = v)))
        (PennyStockUniverseSelectionModel.sortedByDollarVolume coarse) :=
      List.sublist_insertionSort hApw hAsub
    have h2 : List.Perm
        ((PennyStockUniverseSelectionModel.sortedByDollarVolume coarse).filter
          (fun x => decide (x.dollarVolume = v)))
        ((PennyStockUniverseSelectionModel.filteredCoarse coarse).filter
          (fun x => decide (x.dollarVolume = v))) :=
      (List.perm_insertionSort PennyStockUniverseSelectionModel.dvRel
        (PennyStockUniverseSelectionModel.filteredCoarse coarse)).filter _
    have hAA : ((PennyStockUniverseSelectionModel.filteredCoarse coarse).filter
        (fun x => decide (x.dollarVolume = v))).filter
          (fun x => decide (x.dollarVolume = v)) =
        (PennyStockUniverseSelectionModel.filteredCoarse coarse).filter
          (fun x => decide (x.dollarVolume = v)) :=
      List.filter_eq_self.mpr hAfilter
    have h3 : List.Sublist
        ((PennyStockUniverseSelectionModel.filteredCoarse coarse).filter
          (fun x => decide (x.dollarVolume = v)))
        ((PennyStockUniverseSelectionModel.sortedByDollarVolume coarse).filter
          (fun x => decide (x.dollarVolume = v))) := by
      rw [← hAA]
      exact List.Sublist.filter _ h1
    exact (List.Sublist.eq_of_length h3 h2.length_eq.symm).symm

/-- Witness for C5 with a cached single-symbol state and one passing
candidate on a fresh month. -/
theorem select_cap_sorted_stable_witness :
    (sampleState.symbols.length ≤ sampleState.numberOfSymbolsCoarse ∧
      (7 : ℤ) ≠ sampleState.lastMonth) ∧
    ((PennyStockUniverseSelectionModel.SelectCoarse sampleState 7 [sampleCoarseA]).2.length ≤
      sampleState.numberOfSymbolsCoarse ∧
    (PennyStockUniverseSelectionModel.SelectCoarse sampleState sampleState.lastMonth
      [sampleCoarseA]).2.length ≤ sampleState.numberOfSymbolsCoarse ∧
    (PennyStockUniverseSelectionModel.SelectCoarse sampleState 7 [sampleCoarseA]).2 =
      ((PennyStockUniverseSelectionModel.sortedByDollarVolume [sampleCoarseA]).take
        sampleState.numberOfSymbolsCoarse).map (fun x => x.symbol) ∧
    (PennyStockUniverseSelectionModel.sortedByDollarVolume [sampleCoarseA]).Pairwise
      (fun a b => b.dollarVolume ≤ a.dollarVolume) ∧
    (∀ v : ℚ,
      (PennyStockUniverseSelectionModel.sortedByDollarVolume [sampleCoarseA]).filter
        (fun x => decide (x.dollarVolume = v)) =
      (PennyStockUniverseSelectionModel.filteredCoarse [sampleCoarseA]).filter
        (fun x => decide (x.dollarVolume = v))) ∧
    PennyStockUniverseSelectionModel.init.numberOfSymbolsCoarse = 500) :=
  ⟨⟨by decide, by decide⟩,
    select_cap_sorted_stable sampleState 7 [sampleCoarseA] (by decide) (by decide)⟩

/-- C8: `SelectCoarse` preserves the TrackedSet invariant — at most the
configured cap (500 in the shipped configuration) of stored symbols and
no duplicate identifiers — provided the candidate snapshot carries
distinct identifiers; the initial state satisfies it; and `Update`
returns at most `numberOfStocks` insights. -/
theorem tracked_set_invariant (st : PennyStockUniverseSelectionModel) (month : ℤ)
    (coarse : List CoarseFundamental) (m : PumpAndDumpAlphaModel)
    (obs : List PriceObservation)
    (hinv : UniverseInvariant st)
    (hcand : coarse.Pairwise (fun a b => a.symbol ≠ b.symbol))
    (hm : 0 ≤ m.numberOfStocks) :
    UniverseInvariant (PennyStockUniverseSelectionModel.SelectCoarse st month coarse).1 ∧
    UniverseInvariant PennyStockUniverseSelectionModel.init ∧
    ((PumpAndDumpAlphaModel.Update m obs).length : ℤ) ≤ m.numberOfStocks := by
  refine ⟨?_, by decide, ?_⟩
  · by_cases hcache : month = st.lastMonth
    · rw [PennyStockUniverseSelectionModel.SelectCoarse, if_pos hcache]
      exact hinv
    · rw [PennyStockUniverseSelectionModel.SelectCoarse, if_neg hcache]
      have hp1 : (PennyStockUniverseSelectionModel.filteredCoarse coarse).Pairwise
          (fun a b => a.symbol ≠ b.symbol) :=
        List.Pairwise.sublist (List.filter_sublist _) hcand
      have hsymm : Symmetric (fun a b : CoarseFundamental => a.symbol ≠ b.symbol) :=
        fun a b h => Ne.symm h
      have hp2 : (PennyStockUniverseSelectionModel.sortedByDollarVolume coarse).Pairwise
          (fun a b => a.symbol ≠ b.symbol) :=
        hp1.perm (List.perm_insertionSort PennyStockUniverseSelectionModel.dvRel _).symm
          (fun h => hsymm h)
      have hp3 : ((PennyStockUniverseSelectionModel.sortedByDollarVolume coarse).take
          st.numberOfSymbolsCoarse).Pairwise (fun a b => a.symbol ≠ b.symbol) :=
        List.Pairwise.sublist (List.take_sublist _ _) hp2
      constructor
      · rw [List.length_map]
        exact List.length_take_le _ _
      · exact List.pairwise_map.mpr hp3
  · have h1 : (PumpAndDumpAlphaModel.Update m obs).length ≤ m.numberOfStocks.toNat := by
      unfold PumpAndDumpAlphaModel.Update pySlice
      rw [List.length_map, if_pos hm]
      exact List.length_take_le _ _
    calc ((PumpAndDumpAlphaModel.Update m obs).length : ℤ)
        ≤ (m.numberOfStocks.toNat : ℤ) := by exact_mod_cast h1
      _ = m.numberOfStocks := Int.toNat_of_nonneg hm

/-- Witness for C8 at concrete inputs. -/
theorem tracked_set_invariant_witness :
    (UniverseInvariant sampleState ∧
      ([sampleCoarseA].Pairwise (fun a b => a.symbol ≠ b.symbol)) ∧
      (0 : ℤ) ≤ sampleModel.numberOfStocks) ∧
    (UniverseInvariant
        (PennyStockUniverseSelectionModel.SelectCoarse sampleState 7 [sampleCoarseA]).1 ∧
      UniverseInvariant PennyStockUniverseSelectionModel.init ∧
      ((PumpAndDumpAlphaModel.Update sampleModel [sampleObsA]).length : ℤ) ≤
        sampleModel.numberOfStocks) :=
  ⟨⟨by decide, by decide, by decide⟩,
    tracked_set_invariant sampleState 7 [sampleCoarseA] sampleModel [sampleObsA]
      (by decide) (by decide) (by decide)⟩
